import Mathlib

/-!
Verification of the logfix-python event-delivery core: a shallow Lean
embedding of `src/logfix/event.py`, `src/logfix/queue.py`,
`src/logfix/transport.py` and `src/logfix/worker.py`, with theorems about
its buffering, retry and serialization behaviour.
-/

namespace Logfix

/-- `Level` enum from `event.py`: debug/info/warning/error/fatal. -/
inductive Level where
  | debug | info | warning | error | fatal
deriving DecidableEq, Repr

/-- The `.value` string of a `Level` member (the `str`-enum payload). -/
def Level.value : Level → String
  | .debug => "debug"
  | .info => "info"
  | .warning => "warning"
  | .error => "error"
  | .fatal => "fatal"

/-- JSON values, the target of `Event.to_dict` serialization.
Objects keep field insertion order, as Python dicts do. -/
inductive Json where
  | null : Json
  | str (s : String) : Json
  | num (n : Int) : Json
  | obj (fields : List (String × Json)) : Json
  | arr (elems : List Json) : Json
deriving Repr

/-- `Event` dataclass from `event.py`.  `tags` and `extra` are
insertion-ordered mappings, modelled as association lists;
the optional HTTP context fields mirror `http_method` / `http_url` /
`http_status_code`. -/
structure Event where
  message : String
  level : Level := .error
  timestamp : String := ""
  event_id : String := ""
  os_info : String := ""
  runtime_version : String := ""
  app_version : String := "unknown"
  stack_trace : String := ""
  tags : List (String × String) := []
  extra : List (String × Json) := []
  http_method : Option String := none
  http_url : Option String := none
  http_status_code : Option Int := none
deriving Repr

/-- Helper for JSON encoding of an optional string (`None` → JSON null). -/
def jsonOfOptStr : Option String → Json
  | none => Json.null
  | some s => Json.str s

/-- Helper for JSON encoding of an optional int (`None` → JSON null). -/
def jsonOfOptInt : Option Int → Json
  | none => Json.null
  | some n => Json.num n

/-- `Event.to_dict` from `event.py`: the canonical dict of an event.
Always emits id, timestamp, uppercased level, message and app_version;
emits `os_version`, `platform`, `stacktrace`, `tags` and `extra` only
when the corresponding field is truthy (non-empty), and an `http`
sub-object exactly when `http_method` is not `None`. -/
def Event.to_dict (e : Event) : List (String × Json) :=
  [("id", Json.str e.event_id),
   ("timestamp", Json.str e.timestamp),
   ("level", Json.str e.level.value.toUpper),
   ("message", Json.str e.message),
   ("app_version", Json.str e.app_version)]
  ++ (if e.os_info = "" then [] else [("os_version", Json.str e.os_info)])
  ++ (if e.runtime_version = "" then [] else [("platform", Json.str e.runtime_version)])
  ++ (if e.stack_trace = "" then [] else [("stacktrace", Json.str e.stack_trace)])
  ++ (if e.tags.isEmpty then [] else
        [("tags", Json.obj (e.tags.map (fun p => (p.1, Json.str p.2))))])
  ++ (if e.extra.isEmpty then [] else [("extra", Json.obj e.extra)])
  ++ (match e.http_method with
      | none => []
      | some m =>
        [("http", Json.obj
          [("method", Json.str m),
           ("url", jsonOfOptStr e.http_url),
           ("status_code", jsonOfOptInt e.http_status_code)])])

/-- `OverflowPolicy` enum from `config.py`. -/
inductive OverflowPolicy where
  | drop_newest | drop_oldest | block
deriving DecidableEq, Repr

/-- State of an `EventQueue` from `queue.py`: the underlying
`queue.Queue` buffer (head = oldest element), its `maxsize`, the fixed
overflow policy, and the drop counter. -/
structure EventQueue where
  buf : List Event
  maxsize : Nat
  policy : OverflowPolicy
  dropped_count : Nat
deriving Repr

/-- A freshly constructed `EventQueue(maxsize, policy)`. -/
def EventQueue.init (maxsize : Nat) (policy : OverflowPolicy) : EventQueue :=
  { buf := [], maxsize := maxsize, policy := policy, dropped_count := 0 }

/-- `queue.Queue.full()`: with `maxsize <= 0` the queue is unbounded and
never full, otherwise it is full when the buffer holds `maxsize` items. -/
def EventQueue.isFull (q : EventQueue) : Bool :=
  0 < q.maxsize && q.maxsize ≤ q.buf.length

/-- The eviction loop of `EventQueue.put` under DROP_OLDEST: while
`put_nowait` raises `Full`, pop the oldest event and record a drop, then
retry.  Returns the new buffer together with the evicted events in
eviction order.  Structural recursion on the buffer mirrors the loop:
each failing iteration removes one element (a full queue is non-empty). -/
def dropOldestLoop (maxsize : Nat) (buf : List Event) (e : Event) :
    List Event × List Event :=
  if maxsize = 0 ∨ buf.length < maxsize then (buf ++ [e], [])
  else
    match buf with
    | [] => ([e], [])
    | old :: rest =>
      let r := dropOldestLoop maxsize rest e
      (r.1, old :: r.2)

/-- `EventQueue.put` from `queue.py`.  Returns `none` when the call does
not complete (BLOCK policy on a full queue suspends the caller);
otherwise `some (q', returned, discarded)` where `returned` is the
boolean result and `discarded` lists the events handed to `_on_drop`
(each increments `dropped_count` by one). -/
def EventQueue.put (q : EventQueue) (e : Event) :
    Option (EventQueue × Bool × List Event) :=
  match q.policy with
  | .drop_newest =>
    if q.isFull then
      some ({ q with dropped_count := q.dropped_count + 1 }, false, [e])
    else
      some ({ q with buf := q.buf ++ [e] }, true, [])
  | .drop_oldest =>
    let r := dropOldestLoop q.maxsize q.buf e
    some ({ q with buf := r.1, dropped_count := q.dropped_count + r.2.length },
          true, r.2)
  | .block =>
    if q.isFull then none
    else some ({ q with buf := q.buf ++ [e] }, true, [])

/-- `EventQueue.drain(max_items)` from `queue.py`: pop up to `max_items`
events from the front; returns the updated queue and the popped events. -/
def EventQueue.drain (q : EventQueue) (max_items : Nat) :
    EventQueue × List Event :=
  ({ q with buf := q.buf.drop max_items }, q.buf.take max_items)

/-- `EventQueue.drain_all` from `queue.py`: drain up to the configured
capacity (or the current size when `maxsize = 0`), at least 1. -/
def EventQueue.drain_all (q : EventQueue) : EventQueue × List Event :=
  let limit := if 0 < q.maxsize then q.maxsize else q.buf.length
  q.drain (max limit 1)

/-- `EventQueue.size()`. -/
def EventQueue.size (q : EventQueue) : Nat := q.buf.length

/-- An operation on the queue, for stating invariants over sequences. -/
inductive QOp where
  | put (e : Event)
  | drain (n : Nat)
  | drainAll
deriving Repr

/-- One completed operation: `none` when the operation does not complete
(a blocked `put`). -/
def QOp.step (q : EventQueue) : QOp → Option EventQueue
  | .put e => (q.put e).map (·.1)
  | .drain n => some (q.drain n).1
  | .drainAll => some q.drain_all.1

/-- Run a sequence of operations, stopping if one never completes. -/
def runOps (q : EventQueue) : List QOp → Option EventQueue
  | [] => some q
  | op :: ops => (QOp.step q op).bind (fun q' => runOps q' ops)

/-- `TransportResult` from `transport.py`: outcome of one HTTP attempt.
Durations are rationals (seconds). -/
structure TransportResult where
  success : Bool
  status_code : Option Nat := none
  retryable : Bool := false
  retry_after : ℚ := 0
  error : Option String := none
deriving Repr, DecidableEq

/-- Outcome of one `session.post` call inside `_do_request`: either an
HTTP response (status plus the two rate-limit-relevant headers, already
parsed to numbers when present and parseable) or a raised exception. -/
inductive ReqOutcome where
  | response (status : Nat) (rateLimitReset : Option ℚ) (retryAfterHeader : Option ℚ)
  | raised (msg : String)
deriving Repr

/-- `HttpTransport._parse_rate_limit_header` from `transport.py`:
prefer the reset timestamp (`clamp(reset - now, 1, 60)`), else the
Retry-After duration (`max(1, d)`), else 5 seconds. -/
def parse_rate_limit (rateLimitReset retryAfterHeader : Option ℚ) (now : ℚ) : ℚ :=
  match rateLimitReset with
  | some reset_at => max 1 (min (reset_at - now) 60)
  | none =>
    match retryAfterHeader with
    | some d => max 1 d
    | none => 5

/-- `HttpTransport._do_request` from `transport.py`: single attempt,
classifying the response status (2xx success; 401 terminal; 429
retryable with rate-limit wait; 5xx retryable; other 4xx terminal) and
converting a raised exception to a retryable failure. -/
def do_request (now : ℚ) : ReqOutcome → TransportResult
  | .response status reset retryAfter =>
    if 200 ≤ status ∧ status < 300 then
      { success := true, status_code := some status }
    else if status = 401 then
      { success := false, status_code := some status, retryable := false,
        error := some "authentication_failed" }
    else if status = 429 then
      { success := false, status_code := some status, retryable := true,
        retry_after := parse_rate_limit reset retryAfter now,
        error := some "rate_limit_exceeded" }
    else if 500 ≤ status ∧ status < 600 then
      { success := false, status_code := some status, retryable := true,
        error := some "server_error" }
    else
      { success := false, status_code := some status, retryable := false,
        error := some "client_error" }
  | .raised msg =>
    { success := false, retryable := true, error := some msg }

/-- `HttpTransport._backoff_seconds` from `transport.py` with the
sampled jitter made explicit: `min(2^attempt + jitter, 30)`. -/
def backoff_seconds (attempt : Nat) (jitter : ℚ) : ℚ :=
  min ((2 : ℚ) ^ attempt + jitter) 30

/-- The wait computed at line 136 of `transport.py` after a retryable
failure at attempt `k`: Python's `last_result.retry_after or
self._backoff_seconds(attempt)` uses the suggested wait when it is
non-zero (truthy) and the jittered exponential backoff otherwise. -/
def waitFor (results : Nat → TransportResult) (jitter : Nat → ℚ) (k : Nat) : ℚ :=
  if (results k).retry_after ≠ 0 then (results k).retry_after
  else backoff_seconds k (jitter k)

/-- The retry loop of `HttpTransport.send_batch` (lines 111-154),
parameterized by the per-attempt `_do_request` results and the sampled
backoff jitters.  Returns the final `TransportResult`, the number of
request attempts performed, and the list of waits slept (in order).
The loop keeps the last result and exits once `attempt > maxRetries`. -/
def sendLoop (maxRetries : Nat) (results : Nat → TransportResult) (jitter : Nat → ℚ) :
    Nat → TransportResult → TransportResult × Nat × List ℚ
  | attempt, last =>
    if attempt ≤ maxRetries then
      let r := results attempt
      if r.success then (r, 1, [])
      else if !r.retryable then (r, 1, [])
      else
        let rest := sendLoop maxRetries results jitter (attempt + 1) r
        (rest.1, rest.2.1 + 1, waitFor results jitter attempt :: rest.2.2)
    else (last, 0, [])
  termination_by attempt => maxRetries + 1 - attempt

/-- `HttpTransport.send_batch` from `transport.py`: empty batches
succeed without any attempt; otherwise run the retry loop starting at
attempt 0 with the sentinel "not attempted" last result. -/
def send_batch (maxRetries : Nat) (results : Nat → TransportResult) (jitter : Nat → ℚ)
    (events : List Event) : TransportResult × Nat × List ℚ :=
  if events.isEmpty then ({ success := true }, 0, [])
  else sendLoop maxRetries results jitter 0
    { success := false, error := some "not attempted" }

/-- `BackgroundWorker._do_flush` from `worker.py` (exception-free
transport): repeatedly drain up to `maxBatch` events, forward each
non-empty batch, stop once a drained batch is smaller than `maxBatch`
(including empty).  Returns the final queue and the batches sent. -/
def do_flush (maxBatch : Nat) (q : EventQueue) : EventQueue × List (List Event) :=
  if h1 : (q.drain maxBatch).2.isEmpty then ((q.drain maxBatch).1, [])
  else if h2 : (q.drain maxBatch).2.length < maxBatch then
    ((q.drain maxBatch).1, [(q.drain maxBatch).2])
  else
    ((do_flush maxBatch (q.drain maxBatch).1).1,
     (q.drain maxBatch).2 :: (do_flush maxBatch (q.drain maxBatch).1).2)
  termination_by q.buf.length
  decreasing_by
    simp only [EventQueue.drain, List.isEmpty_iff] at h1
    have hm : maxBatch ≠ 0 := by
      intro h0
      exact h1 (by simp [h0])
    have hb : q.buf.length ≠ 0 := by
      intro h0
      exact h1 (by simp [List.length_eq_zero.mp h0])
    simp only [EventQueue.drain, List.length_drop]
    omega

/-- `BackgroundWorker._do_flush` with a transport whose `send_batch`
may raise: a raise inside the loop propagates to the surrounding
`except`, which swallows it and returns, keeping the queue state
reached so far (the already-drained batch is lost). -/
def do_flush_try (maxBatch : Nat) (send : List Event → Except String TransportResult)
    (q : EventQueue) : EventQueue :=
  if h1 : (q.drain maxBatch).2.isEmpty then (q.drain maxBatch).1
  else
    match send (q.drain maxBatch).2 with
    | .error _ => (q.drain maxBatch).1
    | .ok _ =>
      if h2 : (q.drain maxBatch).2.length < maxBatch then (q.drain maxBatch).1
      else do_flush_try maxBatch send (q.drain maxBatch).1
  termination_by q.buf.length
  decreasing_by
    simp only [EventQueue.drain, List.isEmpty_iff] at h1
    have hm : maxBatch ≠ 0 := by
      intro h0
      exact h1 (by simp [h0])
    have hb : q.buf.length ≠ 0 := by
      intro h0
      exact h1 (by simp [List.length_eq_zero.mp h0])
    simp only [EventQueue.drain, List.length_drop]
    omega

/-- The try/except wrapper of `EventQueue.put` (lines 53-85): an
exception raised anywhere in the body is swallowed and `put` returns
`False`. -/
def put_caught (body : Except String Bool) : Bool :=
  match body with
  | .ok b => b
  | .error _ => false

/-- `HttpTransport._build_payload` from `transport.py`: a batch becomes
one JSON object with a single `events` array of canonical dicts. -/
def build_payload (events : List Event) : Json :=
  Json.obj [("events", Json.arr (events.map (fun e => Json.obj e.to_dict)))]

/-- Run a sequence of `put` calls, collecting the returned booleans.
`none` when one of the calls never completes. -/
def putSeq : EventQueue → List Event → Option (EventQueue × List Bool)
  | q, [] => some (q, [])
  | q, e :: es =>
    (q.put e).bind fun r => (putSeq r.1 es).map fun p => (p.1, r.2.1 :: p.2)

/-- Concrete events used in the scenario theorems. -/
def evA : Event := { message := "A" }

/-- Concrete event B. -/
def evB : Event := { message := "B" }

/-- Concrete event C. -/
def evC : Event := { message := "C" }

/-- Concrete event D. -/
def evD : Event := { message := "D" }

/-- Concrete event E. -/
def evE : Event := { message := "E" }

/-! ## Lemmas about the queue -/

/-- When there is room (or the queue is unbounded), the DROP_OLDEST loop
inserts on the first iteration and evicts nothing. -/
lemma dropOldestLoop_notFull (maxsize : Nat) (buf : List Event) (e : Event)
    (h : maxsize = 0 ∨ buf.length < maxsize) :
    dropOldestLoop maxsize buf e = (buf ++ [e], []) := by
  unfold dropOldestLoop
  rw [if_pos h]

/-- On an exactly-full queue, the DROP_OLDEST loop evicts the single
oldest event and appends the new one. -/
lemma dropOldestLoop_full (maxsize : Nat) (buf : List Event) (e : Event)
    (h1 : 1 ≤ maxsize) (h2 : buf.length = maxsize) :
    dropOldestLoop maxsize buf e = (buf.tail ++ [e], buf.take 1) := by
  cases buf with
  | nil => simp at h2; omega
  | cons old rest =>
    rw [List.length_cons] at h2
    unfold dropOldestLoop
    rw [if_neg (by rw [List.length_cons]; omega)]
    simp [dropOldestLoop_notFull maxsize rest e (Or.inr (by omega))]

/-- `put` on a queue with room appends to the tail, returns `True` and
drops nothing, under every overflow policy. -/
lemma put_notFull (q : EventQueue) (e : Event) (h : q.buf.length < q.maxsize) :
    q.put e = some ({ q with buf := q.buf ++ [e] }, true, []) := by
  have hf : q.isFull = false := by
    simp [EventQueue.isFull]
    omega
  cases hp : q.policy <;>
    simp [EventQueue.put, hp, hf, dropOldestLoop_notFull q.maxsize q.buf e (Or.inr h)]

/-- `put` always accounts one `dropped_count` increment per event handed
to `_on_drop`. -/
lemma put_dropped_delta (q : EventQueue) (e : Event) {q' : EventQueue}
    {ret : Bool} {disc : List Event} (h : q.put e = some (q', ret, disc)) :
    q'.dropped_count = q.dropped_count + disc.length := by
  unfold EventQueue.put at h
  split at h
  · split at h <;>
      (simp only [Option.some.injEq, Prod.mk.injEq] at h
       obtain ⟨hq, -, hd⟩ := h
       subst hq
       subst hd
       simp)
  · simp only [Option.some.injEq, Prod.mk.injEq] at h
    obtain ⟨hq, -, hd⟩ := h
    subst hq
    subst hd
    simp
  · split at h
    · exact absurd h (by simp)
    · simp only [Option.some.injEq, Prod.mk.injEq] at h
      obtain ⟨hq, -, hd⟩ := h
      subst hq
      subst hd
      simp

/-- `put` from a state within capacity: the new state stays within
capacity, `maxsize` and `policy` are unchanged, and at most one event is
discarded. -/
lemma put_preserves (q : EventQueue) (e : Event) (hc : 1 ≤ q.maxsize)
    (hlen : q.buf.length ≤ q.maxsize) {q' : EventQueue} {ret : Bool}
    {disc : List Event} (h : q.put e = some (q', ret, disc)) :
    q'.maxsize = q.maxsize ∧ q'.policy = q.policy ∧
    q'.buf.length ≤ q.maxsize ∧ disc.length ≤ 1 := by
  unfold EventQueue.put at h
  split at h
  · split at h
    next hf =>
      simp only [Option.some.injEq, Prod.mk.injEq] at h
      obtain ⟨hq, -, hd⟩ := h
      subst hq
      subst hd
      simp_all
    next hf =>
      simp only [EventQueue.isFull, Bool.and_eq_true, decide_eq_true_eq,
        Bool.not_eq_true] at hf
      simp only [Option.some.injEq, Prod.mk.injEq] at h
      obtain ⟨hq, -, hd⟩ := h
      subst hq
      subst hd
      simp
      omega
  · by_cases hfull : q.buf.length < q.maxsize
    · rw [dropOldestLoop_notFull _ _ _ (Or.inr hfull)] at h
      simp only [Option.some.injEq, Prod.mk.injEq] at h
      obtain ⟨hq, -, hd⟩ := h
      subst hq
      subst hd
      simp
      omega
    · have heq : q.buf.length = q.maxsize := by omega
      rw [dropOldestLoop_full _ _ _ hc heq] at h
      simp only [Option.some.injEq, Prod.mk.injEq] at h
      obtain ⟨hq, -, hd⟩ := h
      subst hq
      subst hd
      simp [List.length_tail, List.length_take]
      omega
  · split at h
    next hf => exact absurd h (by simp)
    next hf =>
      simp [EventQueue.isFull] at hf
      simp only [Option.some.injEq, Prod.mk.injEq] at h
      obtain ⟨hq, -, hd⟩ := h
      subst hq
      subst hd
      simp
      omega

/-- Drains never change `maxsize`, `policy` or `dropped_count`, and
never grow the buffer. -/
lemma step_preserves (q : EventQueue) (op : QOp) {q' : EventQueue}
    (hc : 1 ≤ q.maxsize) (hlen : q.buf.length ≤ q.maxsize)
    (h : QOp.step q op = some q') :
    q'.maxsize = q.maxsize ∧ q'.buf.length ≤ q.maxsize ∧
    q.dropped_count ≤ q'.dropped_count := by
  cases op with
  | put e =>
    simp only [QOp.step] at h
    cases hput : q.put e with
    | none =>
      rw [hput] at h
      simp at h
    | some r =>
      obtain ⟨q'', ret, disc⟩ := r
      rw [hput] at h
      simp only [Option.map_some'] at h
      injection h with h
      subst h
      have hd := put_dropped_delta q e hput
      have hpre := put_preserves q e hc hlen hput
      exact ⟨hpre.1, hpre.2.2.1, by omega⟩
  | drain n =>
    simp [QOp.step, EventQueue.drain] at h
    subst h
    simp [List.length_drop]
    omega
  | drainAll =>
    simp [QOp.step, EventQueue.drain_all, EventQueue.drain] at h
    subst h
    simp [List.length_drop]
    omega

/-- Every state reachable from a within-capacity state is within
capacity, with the same `maxsize`. -/
lemma runOps_inv : ∀ (ops : List QOp) (q0 q : EventQueue),
    1 ≤ q0.maxsize → q0.buf.length ≤ q0.maxsize → runOps q0 ops = some q →
    q.maxsize = q0.maxsize ∧ q.buf.length ≤ q.maxsize := by
  intro ops
  induction ops with
  | nil =>
    intro q0 q hc hlen h
    simp [runOps] at h
    subst h
    exact ⟨rfl, hlen⟩
  | cons op ops ih =>
    intro q0 q hc hlen h
    unfold runOps at h
    cases hstep : QOp.step q0 op with
    | none =>
      rw [hstep] at h
      simp at h
    | some q1 =>
      rw [hstep] at h
      simp only [Option.some_bind] at h
      have hpre := step_preserves q0 op hc hlen hstep
      have := ih q1 q (by omega) (by omega) h
      omega

/-- `putSeq` of events that fit in the remaining capacity appends them
all in order, each call returning `True` with nothing dropped. -/
lemma putSeq_no_overflow : ∀ (es : List Event) (q : EventQueue),
    q.buf.length + es.length ≤ q.maxsize →
    putSeq q es = some ({ q with buf := q.buf ++ es },
      List.replicate es.length true) := by
  intro es
  induction es with
  | nil => intro q h; simp [putSeq]
  | cons e es ih =>
    intro q h
    simp at h
    rw [putSeq, put_notFull q e (by omega)]
    simp only [Option.some_bind]
    rw [ih { q with buf := q.buf ++ [e] } (by simp; omega)]
    simp [List.replicate_succ]

/-! ## Claims about the event queue -/

/-- C1: On a full buffer, `EventQueue.put` follows the configured
overflow policy.  Under DROP_NEWEST it returns `False`, increments
`dropped_count` by exactly 1 and leaves the buffer unchanged; under
DROP_OLDEST (capacity ≥ 1) it returns `True`, evicts exactly the single
oldest event, increments `dropped_count` by exactly 1 and appends the
new event at the tail; and with capacity 2 the scenario
put(A), put(B), put(C) yields three `True`s, `dropped_count = 1` and
`drain(2) = [B, C]`. -/
theorem C1_put_full_follows_overflow_policy :
    (∀ (q : EventQueue) (e : Event), q.policy = .drop_newest → q.isFull = true →
      q.put e = some ({ q with dropped_count := q.dropped_count + 1 }, false, [e])) ∧
    (∀ (q : EventQueue) (e : Event), q.policy = .drop_oldest → 1 ≤ q.maxsize →
      q.buf.length = q.maxsize →
      q.put e = some ({ q with buf := q.buf.tail ++ [e], dropped_count := q.dropped_count + 1 }, true, q.buf.take 1)) ∧
    (putSeq (EventQueue.init 2 .drop_oldest) [evA, evB, evC]).map
        (fun p => (p.2, p.1.dropped_count, (p.1.drain 2).2)) =
      some ([true, true, true], 1, [evB, evC]) := by
  refine ⟨?_, ?_, ?_⟩
  · intro q e hp hf
    simp [EventQueue.put, hp, hf]
  · intro q e hp h1 h2
    have hl : (q.buf.take 1).length = 1 := by
      simp [List.length_take]
      omega
    simp [EventQueue.put, hp, dropOldestLoop_full q.maxsize q.buf e h1 h2, hl]
  · rfl

/-- Witness for C1 at a concrete full queue of capacity 2. -/
theorem C1_put_full_follows_overflow_policy_witness :
    (({ buf := [evA, evB], maxsize := 2, policy := .drop_newest, dropped_count := 0 } : EventQueue).put evC =
      some ({ buf := [evA, evB], maxsize := 2, policy := .drop_newest, dropped_count := 1 }, false, [evC])) ∧
    (({ buf := [evA, evB], maxsize := 2, policy := .drop_oldest, dropped_count := 0 } : EventQueue).put evC =
      some ({ buf := [evB, evC], maxsize := 2, policy := .drop_oldest, dropped_count := 1 }, true, [evA])) :=
  ⟨C1_put_full_follows_overflow_policy.1 _ evC rfl rfl,
   C1_put_full_follows_overflow_policy.2.1 _ evC rfl (by decide) rfl⟩

/-- C2: After any sequence of puts whose events fit within capacity,
the buffer holds exactly those events in enqueue order, and `drain n`
returns the first `min n size` buffered events in FIFO order, removing
exactly the events it returns (returned ++ remaining = original). -/
theorem C2_drain_returns_fifo_order :
    (∀ (q : EventQueue) (n : Nat),
      (q.drain n).2 = q.buf.take n ∧
      (q.drain n).2.length = min n q.buf.length ∧
      (q.drain n).2 ++ (q.drain n).1.buf = q.buf) ∧
    (∀ (c : Nat) (policy : OverflowPolicy) (es : List Event),
      es.length ≤ c →
      putSeq (EventQueue.init c policy) es =
        some ({ buf := es, maxsize := c, policy := policy, dropped_count := 0 },
          List.replicate es.length true)) := by
  refine ⟨fun q n => ⟨rfl, ?_, ?_⟩, ?_⟩
  · simp [EventQueue.drain, List.length_take]
  · simp [EventQueue.drain, List.take_append_drop]
  · intro c policy es h
    have := putSeq_no_overflow es (EventQueue.init c policy)
      (by simp [EventQueue.init]; omega)
    simpa [EventQueue.init] using this

/-- Witness for C2: two events through a capacity-3 queue. -/
theorem C2_drain_returns_fifo_order_witness :
    putSeq (EventQueue.init 3 .drop_newest) [evA, evB] =
      some ({ buf := [evA, evB], maxsize := 3, policy := .drop_newest, dropped_count := 0 }, [true, true]) :=
  C2_drain_returns_fifo_order.2 3 .drop_newest [evA, evB] (by decide)

/-- C3: After any sequence of put / drain / drain_all operations from a
fresh queue of capacity `c ≥ 1`, the size never exceeds `c`; from any
such reachable state the drop counter never decreases in one more step,
and a `put` adds exactly 1 to it per discarded event (and discards at
most one). -/
theorem C3_capacity_invariant_drop_accounting :
    ∀ (c : Nat) (policy : OverflowPolicy) (ops : List QOp) (q : EventQueue),
      1 ≤ c → runOps (EventQueue.init c policy) ops = some q →
      q.size ≤ c ∧
      (∀ (op : QOp) (q' : EventQueue), QOp.step q op = some q' →
        q.dropped_count ≤ q'.dropped_count) ∧
      (∀ (e : Event) (q' : EventQueue) (ret : Bool) (disc : List Event),
        q.put e = some (q', ret, disc) →
        q'.dropped_count = q.dropped_count + disc.length ∧ disc.length ≤ 1) := by
  intro c policy ops q hc hrun
  have hinv := runOps_inv ops (EventQueue.init c policy) q
    (by simpa [EventQueue.init] using hc) (by simp [EventQueue.init]) hrun
  rw [show (EventQueue.init c policy).maxsize = c from rfl] at hinv
  obtain ⟨hm, hl⟩ := hinv
  refine ⟨?_, ?_, ?_⟩
  · rw [EventQueue.size]
    omega
  · intro op q' hstep
    exact (step_preserves q op (by omega) hl hstep).2.2
  · intro e q' ret disc hput
    exact ⟨put_dropped_delta q e hput,
      (put_preserves q e (by omega) hl hput).2.2.2⟩

/-- Witness for C3: capacity 1 under DROP_NEWEST after accepting A and
dropping B; one more overflowing put discards exactly one event. -/
theorem C3_capacity_invariant_drop_accounting_witness :
    ({ buf := [evA], maxsize := 1, policy := .drop_newest, dropped_count := 1 } : EventQueue).size ≤ 1 ∧
    ({ buf := [evA], maxsize := 1, policy := .drop_newest, dropped_count := 1 } : EventQueue).dropped_count ≤
      ({ buf := [evA], maxsize := 1, policy := .drop_newest, dropped_count := 2 } : EventQueue).dropped_count ∧
    ({ buf := [evA], maxsize := 1, policy := .drop_newest, dropped_count := 2 } : EventQueue).dropped_count =
      ({ buf := [evA], maxsize := 1, policy := .drop_newest, dropped_count := 1 } : EventQueue).dropped_count +
        ([evC] : List Event).length ∧
    ([evC] : List Event).length ≤ 1 := by
  have h := C3_capacity_invariant_drop_accounting 1 .drop_newest
    [QOp.put evA, QOp.put evB]
    { buf := [evA], maxsize := 1, policy := .drop_newest, dropped_count := 1 }
    (by decide) rfl
  exact ⟨h.1, h.2.1 (QOp.put evC) _ rfl,
    (h.2.2 evC _ false [evC] rfl).1, (h.2.2 evC _ false [evC] rfl).2⟩

/-! ## Lemmas about the transport retry loop -/

/-- Under persistent retryable failure the retry loop performs one
attempt per remaining allowed iteration, sleeps after every one of them
(including the final one), and ends with the last attempt's result. -/
lemma sendLoop_persistent (maxRetries : Nat) (results : Nat → TransportResult)
    (jitter : Nat → ℚ)
    (hAll : ∀ k, (results k).success = false ∧ (results k).retryable = true) :
    ∀ (fuel attempt : Nat) (last : TransportResult),
      attempt + fuel = maxRetries + 1 →
      sendLoop maxRetries results jitter attempt last =
        (if fuel = 0 then last else results maxRetries, fuel,
         (List.range' attempt fuel).map (waitFor results jitter)) := by
  intro fuel
  induction fuel with
  | zero =>
    intro attempt last h
    rw [sendLoop]
    rw [if_neg (by omega)]
    simp
  | succ n ih =>
    intro attempt last h
    rw [sendLoop]
    rw [if_pos (by omega)]
    simp only [(hAll attempt).1, (hAll attempt).2, Bool.false_eq_true, if_false,
      Bool.not_true, ite_false]
    rw [ih (attempt + 1) (results attempt) (by omega)]
    by_cases hn : n = 0
    · subst hn
      have ha : attempt = maxRetries := by omega
      subst ha
      simp [List.range']
    · simp only [hn, if_false, Nat.succ_ne_zero, List.range']
      rfl

/-- 1 second is a lower bound of every rate-limit wait. -/
lemma parse_rate_limit_pos (reset ra : Option ℚ) (now : ℚ) :
    1 ≤ parse_rate_limit reset ra now := by
  cases reset <;> cases ra <;> simp [parse_rate_limit] <;> norm_num

/-! ## Claims about the transport -/

/-- C4: For a non-empty batch under persistent retryable failure,
`send_batch` performs exactly `max_retries + 1` request attempts and
returns a failure; with `max_retries = 2` that is exactly 3 attempts. -/
theorem C4_attempts_exhaust_retries :
    (∀ (maxRetries : Nat) (results : Nat → TransportResult) (jitter : Nat → ℚ)
      (events : List Event),
      events ≠ [] →
      (∀ k, (results k).success = false ∧ (results k).retryable = true) →
      (send_batch maxRetries results jitter events).2.1 = maxRetries + 1 ∧
      (send_batch maxRetries results jitter events).1.success = false) ∧
    (∀ (results : Nat → TransportResult) (jitter : Nat → ℚ)
      (events : List Event),
      events ≠ [] →
      (∀ k, results k = do_request 0 (ReqOutcome.response 500 none none)) →
      (send_batch 2 results jitter events).2.1 = 3) := by
  have main : ∀ (maxRetries : Nat) (results : Nat → TransportResult)
      (jitter : Nat → ℚ) (events : List Event),
      events ≠ [] →
      (∀ k, (results k).success = false ∧ (results k).retryable = true) →
      (send_batch maxRetries results jitter events).2.1 = maxRetries + 1 ∧
      (send_batch maxRetries results jitter events).1.success = false := by
    intro maxRetries results jitter events hne hAll
    have hE : events.isEmpty = false := by
      cases events with
      | nil => exact absurd rfl hne
      | cons a t => rfl
    rw [send_batch, hE]
    simp only [Bool.false_eq_true, if_false]
    rw [sendLoop_persistent maxRetries results jitter hAll (maxRetries + 1) 0 _
      (by omega)]
    simp [(hAll maxRetries).1]
  refine ⟨main, ?_⟩
  intro results jitter events hne hres
  have hAll : ∀ k, (results k).success = false ∧ (results k).retryable = true := by
    intro k
    rw [hres k]
    exact ⟨rfl, rfl⟩
  exact (main 2 results jitter events hne hAll).1

/-- Witness for C4 with a one-event batch against a permanent 500. -/
theorem C4_attempts_exhaust_retries_witness :
    (send_batch 2 (fun _ => do_request 0 (ReqOutcome.response 500 none none))
      (fun _ => 0) [evA]).2.1 = 3 :=
  C4_attempts_exhaust_retries.2 _ _ [evA] (by simp) (fun _ => rfl)

/-- C5: evaluation at the failing input.  With `max_retries = 0` and a
permanent retryable 500 failure, the single allowed attempt fails with
no attempts remaining, yet `send_batch` still sleeps one backoff wait
(1 second here) before returning the failure — the claimed
"return immediately without any further wait" does not hold. -/
theorem C5_sleeps_after_final_failed_attempt :
    (send_batch 0 (fun _ => do_request 0 (ReqOutcome.response 500 none none))
      (fun _ => 0) [evA]).2.1 = 1 ∧
    (send_batch 0 (fun _ => do_request 0 (ReqOutcome.response 500 none none))
      (fun _ => 0) [evA]).2.2 = [1] ∧
    (send_batch 0 (fun _ => do_request 0 (ReqOutcome.response 500 none none))
      (fun _ => 0) [evA]).1.success = false := by
  have hAll : ∀ k, ((fun _ : Nat => do_request 0
      (ReqOutcome.response 500 none none)) k).success = false ∧
      ((fun _ : Nat => do_request 0 (ReqOutcome.response 500 none none))
        k).retryable = true := fun _ => ⟨rfl, rfl⟩
  rw [send_batch]
  simp only [List.isEmpty_cons, Bool.false_eq_true, if_false]
  rw [sendLoop_persistent 0 _ _ hAll 1 0 _ (by omega)]
  refine ⟨rfl, ?_, rfl⟩
  simp [List.range', waitFor, backoff_seconds, do_request, parse_rate_limit]

/-- C6: the jittered exponential backoff equals
`min(2^k + jitter, 30)` and, for jitter within its sampled range
`[0, 0.2 * 2^k]`, lies between `2^k` and `1.2 * 2^k`, both capped at
30 seconds. -/
theorem C6_backoff_within_bounds :
    ∀ (k : Nat) (jitter : ℚ), 0 ≤ jitter → jitter ≤ 1/5 * 2 ^ k →
      backoff_seconds k jitter = min ((2:ℚ) ^ k + jitter) 30 ∧
      min ((2:ℚ) ^ k) 30 ≤ backoff_seconds k jitter ∧
      backoff_seconds k jitter ≤ min (6/5 * (2:ℚ) ^ k) 30 := by
  intro k j h0 h1
  refine ⟨rfl, ?_, ?_⟩
  · exact min_le_min (by linarith) le_rfl
  · exact min_le_min (by linarith) le_rfl

/-- Witness for C6 at attempt 2 with jitter 1/10. -/
theorem C6_backoff_within_bounds_witness :
    backoff_seconds 2 (1/10) = min ((2:ℚ) ^ 2 + 1/10) 30 ∧
    min ((2:ℚ) ^ 2) 30 ≤ backoff_seconds 2 (1/10) ∧
    backoff_seconds 2 (1/10) ≤ min (6/5 * (2:ℚ) ^ 2) 30 :=
  C6_backoff_within_bounds 2 (1/10) (by norm_num) (by norm_num)

/-- C7: the 429 wait is `clamp(reset - now, 1, 60)` when a reset
timestamp is present, else `max(1, d)` for a Retry-After duration `d`
(so `Retry-After: 10` waits 10 s), else 5 s; a 429 response is
retryable, carries that wait as its `retry_after`, and the retry loop
uses exactly that wait before the next attempt. -/
theorem C7_rate_limit_wait_policy :
    (∀ (ra : Option ℚ) (reset now : ℚ),
      parse_rate_limit (some reset) ra now = max 1 (min (reset - now) 60)) ∧
    (∀ (d now : ℚ), parse_rate_limit none (some d) now = max 1 d) ∧
    (∀ now : ℚ, parse_rate_limit none none now = 5) ∧
    (∀ now : ℚ, parse_rate_limit none (some 10) now = 10) ∧
    (∀ (now : ℚ) (reset ra : Option ℚ),
      (do_request now (ReqOutcome.response 429 reset ra)).retryable = true ∧
      (do_request now (ReqOutcome.response 429 reset ra)).retry_after =
        parse_rate_limit reset ra now) ∧
    (∀ (results : Nat → TransportResult) (jitter : Nat → ℚ) (k : Nat)
      (now : ℚ) (reset ra : Option ℚ),
      results k = do_request now (ReqOutcome.response 429 reset ra) →
      waitFor results jitter k = parse_rate_limit reset ra now) := by
  have h429 : ∀ (now : ℚ) (reset ra : Option ℚ),
      do_request now (ReqOutcome.response 429 reset ra) =
        { success := false, status_code := some 429, retryable := true,
          retry_after := parse_rate_limit reset ra now,
          error := some "rate_limit_exceeded" } := by
    intro now reset ra
    norm_num [do_request]
  refine ⟨fun ra reset now => rfl, fun d now => rfl, fun now => rfl, ?_, ?_, ?_⟩
  · intro now
    simp [parse_rate_limit]
  · intro now reset ra
    rw [h429]
    exact ⟨rfl, rfl⟩
  · intro results jitter k now reset ra hres
    have hp := parse_rate_limit_pos reset ra now
    have hne : parse_rate_limit reset ra now ≠ 0 := by
      intro h0
      rw [h0] at hp
      norm_num at hp
    rw [waitFor, hres, h429]
    simp [hne]

/-- Witness for C7: Retry-After 10 drives the loop wait to 10 seconds. -/
theorem C7_rate_limit_wait_policy_witness :
    waitFor (fun _ => do_request 0 (ReqOutcome.response 429 none (some 10)))
        (fun _ => 0) 0 = parse_rate_limit none (some 10) 0 ∧
    parse_rate_limit none (some 10) 0 = 10 :=
  ⟨C7_rate_limit_wait_policy.2.2.2.2.2 _ _ 0 0 none (some 10) rfl,
   C7_rate_limit_wait_policy.2.2.2.1 0⟩

/-! ## Lemmas about the flush cycle -/

/-- Full behaviour of one flush cycle: the batches sent concatenate back
to the original buffer in order, the buffer ends empty, every batch sent
is non-empty and at most `maxBatch` long, and every batch except
possibly the last is exactly full-sized. -/
lemma do_flush_spec (maxBatch : Nat) (hm : 1 ≤ maxBatch) :
    ∀ (n : Nat) (q : EventQueue), q.buf.length ≤ n →
      (do_flush maxBatch q).2.flatten = q.buf ∧
      (do_flush maxBatch q).1.buf = [] ∧
      (∀ b ∈ (do_flush maxBatch q).2, b ≠ [] ∧ b.length ≤ maxBatch) ∧
      (∀ b ∈ (do_flush maxBatch q).2.dropLast, b.length = maxBatch) := by
  intro n
  induction n with
  | zero =>
    intro q hq
    have hbuf : q.buf = [] := List.length_eq_zero.mp (by omega)
    rw [do_flush, dif_pos (by simp [EventQueue.drain, hbuf])]
    simp [EventQueue.drain, hbuf]
  | succ n ih =>
    intro q hq
    by_cases hemp : q.buf = []
    · rw [do_flush, dif_pos (by simp [EventQueue.drain, hemp])]
      simp [EventQueue.drain, hemp]
    · have hne : ¬ (q.drain maxBatch).2.isEmpty = true := by
        simp [EventQueue.drain, List.isEmpty_iff, List.take_eq_nil_iff]
        exact ⟨by omega, hemp⟩
      rw [do_flush, dif_neg hne]
      by_cases hshort : (q.drain maxBatch).2.length < maxBatch
      · rw [dif_pos hshort]
        have hlt : q.buf.length < maxBatch := by
          simp [EventQueue.drain, List.length_take] at hshort
          omega
        have htake : (q.drain maxBatch).2 = q.buf :=
          List.take_of_length_le (by omega)
        refine ⟨by simp [htake], ?_, ?_, by simp⟩
        · show (q.buf.drop maxBatch) = []
          exact List.drop_eq_nil_of_le (by omega)
        · intro b hb
          rw [htake] at hb
          simp at hb
          subst hb
          exact ⟨hemp, by omega⟩
      · rw [dif_neg hshort]
        have hfull : (q.drain maxBatch).2.length = maxBatch := by
          simp [EventQueue.drain, List.length_take] at hshort ⊢
          omega
        have hlen : (q.drain maxBatch).1.buf.length ≤ n := by
          have h1 : q.buf.length ≠ 0 := by
            intro h0
            exact hemp (List.length_eq_zero.mp h0)
          have h2 : maxBatch ≤ q.buf.length := by
            simp [EventQueue.drain, List.length_take] at hfull
            omega
          simp [EventQueue.drain, List.length_drop]
          omega
        obtain ⟨ihjoin, ihbuf, ihmem, ihlast⟩ := ih (q.drain maxBatch).1 hlen
        refine ⟨?_, ihbuf, ?_, ?_⟩
        · simp only [List.flatten_cons]
          rw [ihjoin]
          exact List.take_append_drop maxBatch q.buf
        · intro b hb
          simp at hb
          rcases hb with hb | hb
          · subst hb
            refine ⟨?_, by omega⟩
            intro h0
            rw [h0] at hfull
            simp at hfull
            omega
          · exact ihmem b hb
        · intro b hb
          cases hrest : (do_flush maxBatch (q.drain maxBatch).1).2 with
          | nil =>
            rw [hrest] at hb
            simp at hb
          | cons x xs =>
            rw [hrest] at hb
            rw [List.dropLast_cons₂] at hb
            rcases List.mem_cons.mp hb with hb | hb
            · subst hb
              exact hfull
            · exact ihlast b (hrest ▸ hb)


/-- The five-event scenario queue used by C8. -/
def q5scenario : EventQueue :=
  { buf := [evA, evB, evC, evD, evE], maxsize := 1000, policy := .drop_newest, dropped_count := 0 }

/-- C8: a flush cycle drains batches of up to `max_batch_size` events,
forwards every non-empty drained batch in order, keeps draining while
batches come back full-sized and stops at the first short drain; the
batches concatenate to the original buffer, every batch is non-empty and
within the size bound, all but the last are exactly full-sized, and with
`max_batch_size = 3` and 5 queued events exactly two batches of sizes 3
and 2 are sent. -/
theorem C8_flush_cycle_batches :
    (∀ (maxBatch : Nat) (q : EventQueue), 1 ≤ maxBatch →
      (do_flush maxBatch q).2.flatten = q.buf ∧
      (do_flush maxBatch q).1.buf = [] ∧
      (∀ b ∈ (do_flush maxBatch q).2, b ≠ [] ∧ b.length ≤ maxBatch) ∧
      (∀ b ∈ (do_flush maxBatch q).2.dropLast, b.length = maxBatch)) ∧
    ((do_flush 3 q5scenario).2.map List.length =
      [3, 2]) := by
  refine ⟨fun maxBatch q hm => do_flush_spec maxBatch hm q.buf.length q le_rfl, ?_⟩
  rw [do_flush]
  rw [dif_neg (by decide), dif_neg (by decide)]
  rw [do_flush]
  rw [dif_neg (by decide), dif_pos (by decide)]
  rfl

/-- Witness for C8: the capacity-1000 queue holding the five scenario
events, flushed with batch size 3. -/
theorem C8_flush_cycle_batches_witness :
    (do_flush 3 q5scenario).2.flatten =
      (q5scenario : EventQueue).buf ∧
    (do_flush 3 q5scenario).1.buf = [] ∧
    (∀ b ∈ (do_flush 3 q5scenario).2,
      b ≠ [] ∧ b.length ≤ 3) ∧
    (∀ b ∈ (do_flush 3 q5scenario).2.dropLast,
      b.length = 3) :=
  C8_flush_cycle_batches.1 3 _ (by decide)


/-! ## Claims about serialization and error absorption -/

/-- C9: a batch serializes to a single JSON object with one `events`
array holding each event's canonical dict; that dict always carries the
id, timestamp, uppercased level name, message and app version, carries
OS info, platform, stack trace, tags and extra exactly when non-empty,
and carries an `http` sub-object with method/url/status code exactly
when the HTTP context (its method) is present. -/
theorem C9_payload_and_canonical_dict :
    (∀ events : List Event, build_payload events =
      Json.obj [("events", Json.arr (events.map (fun e => Json.obj e.to_dict)))]) ∧
    (∀ e : Event,
      ((e.to_dict).lookup "id" = some (Json.str e.event_id)) ∧
      ((e.to_dict).lookup "timestamp" = some (Json.str e.timestamp)) ∧
      ((e.to_dict).lookup "level" = some (Json.str e.level.value.toUpper)) ∧
      ((e.to_dict).lookup "message" = some (Json.str e.message)) ∧
      ((e.to_dict).lookup "app_version" = some (Json.str e.app_version)) ∧
      ((e.to_dict).lookup "os_version" =
        (if e.os_info = "" then none else some (Json.str e.os_info))) ∧
      ((e.to_dict).lookup "platform" =
        (if e.runtime_version = "" then none
         else some (Json.str e.runtime_version))) ∧
      ((e.to_dict).lookup "stacktrace" =
        (if e.stack_trace = "" then none else some (Json.str e.stack_trace))) ∧
      ((e.to_dict).lookup "tags" =
        (if e.tags.isEmpty then none
         else some (Json.obj (e.tags.map (fun p => (p.1, Json.str p.2)))))) ∧
      ((e.to_dict).lookup "extra" =
        (if e.extra.isEmpty then none else some (Json.obj e.extra))) ∧
      ((e.to_dict).lookup "http" =
        (match e.http_method with
         | none => none
         | some m => some (Json.obj [("method", Json.str m),
             ("url", jsonOfOptStr e.http_url),
             ("status_code", jsonOfOptInt e.http_status_code)])))) := by
  refine ⟨fun events => rfl, ?_⟩
  intro e
  obtain ⟨msg, lvl, ts, eid, os, rt, av, st, tg, ex, hmeth, hurl, hstat⟩ := e
  refine ⟨?_, ?_, ?_, ?_, ?_, ?_, ?_, ?_, ?_, ?_, ?_⟩
  · simp [Event.to_dict, List.lookup_append, List.lookup]
  · simp [Event.to_dict, List.lookup_append, List.lookup]
  · simp [Event.to_dict, List.lookup_append, List.lookup]
  · simp [Event.to_dict, List.lookup_append, List.lookup]
  · simp [Event.to_dict, List.lookup_append, List.lookup]
  · cases hmeth <;>
      simp [Event.to_dict, List.lookup_append, List.lookup, Option.or_none,
        apply_ite (List.lookup ("os_version" : String))]
  · cases hmeth <;>
      simp [Event.to_dict, List.lookup_append, List.lookup, Option.or_none,
        apply_ite (List.lookup ("platform" : String))]
  · cases hmeth <;>
      simp [Event.to_dict, List.lookup_append, List.lookup, Option.or_none,
        apply_ite (List.lookup ("stacktrace" : String))]
  · cases hmeth <;>
      simp [Event.to_dict, List.lookup_append, List.lookup, Option.or_none,
        apply_ite (List.lookup ("tags" : String))]
  · cases hmeth <;>
      simp [Event.to_dict, List.lookup_append, List.lookup, Option.or_none,
        apply_ite (List.lookup ("extra" : String))]
  · cases hmeth <;>
      simp [Event.to_dict, List.lookup_append, List.lookup, Option.or_none,
        apply_ite (List.lookup ("http" : String))]

/-- Inside `_do_flush` with a transport whose send may raise, the loop
only ever removes a prefix of the buffer and always returns a valid
queue state: the exception is absorbed, never propagated. -/
lemma do_flush_try_drops (maxBatch : Nat)
    (send : List Event → Except String TransportResult) :
    ∀ (n : Nat) (q : EventQueue), q.buf.length ≤ n →
      ∃ k, do_flush_try maxBatch send q = { q with buf := q.buf.drop k } := by
  intro n
  induction n with
  | zero =>
    intro q h
    have hbuf : q.buf = [] := List.length_eq_zero.mp (by omega)
    rw [do_flush_try, dif_pos (by simp [EventQueue.drain, hbuf])]
    exact ⟨maxBatch, rfl⟩
  | succ n ih =>
    intro q h
    rw [do_flush_try]
    by_cases hemp : (q.drain maxBatch).2.isEmpty
    · rw [dif_pos hemp]
      exact ⟨maxBatch, rfl⟩
    · rw [dif_neg hemp]
      cases hsend : send (q.drain maxBatch).2 with
      | error msg => exact ⟨maxBatch, rfl⟩
      | ok r =>
        by_cases hshort : (q.drain maxBatch).2.length < maxBatch
        · rw [dif_pos hshort]
          exact ⟨maxBatch, rfl⟩
        · rw [dif_neg hshort]
          have hm : 1 ≤ maxBatch := by
            rcases Nat.eq_zero_or_pos maxBatch with h0 | h0
            · exfalso
              apply hemp
              simp [EventQueue.drain, h0]
            · exact h0
          have hq1 : (q.drain maxBatch).1.buf.length ≤ n := by
            have hb : q.buf.length ≠ 0 := by
              intro h0
              apply hemp
              simp [EventQueue.drain, List.length_eq_zero.mp h0]
            simp [EventQueue.drain, List.length_drop]
            omega
          obtain ⟨k, hk⟩ := ih ((q.drain maxBatch).1) hq1
          refine ⟨k + maxBatch, ?_⟩
          rw [hk]
          simp [EventQueue.drain, List.drop_drop]
          exact congrArg (fun m => List.drop m q.buf) (Nat.add_comm maxBatch k)

/-- C10: no core operation propagates an exception.  The `put` wrapper
turns any raised exception into the return value `False`; a raising
request attempt becomes a retryable failure `TransportResult` carrying
the message; and a flush cycle whose drain/send raises still returns a
well-formed queue state that is the original minus a drained prefix. -/
theorem C10_failures_absorbed :
    (∀ msg : String, put_caught (Except.error msg) = false) ∧
    (∀ b : Bool, put_caught (Except.ok b) = b) ∧
    (∀ (now : ℚ) (msg : String),
      (do_request now (ReqOutcome.raised msg)).success = false ∧
      (do_request now (ReqOutcome.raised msg)).retryable = true ∧
      (do_request now (ReqOutcome.raised msg)).error = some msg) ∧
    (∀ (maxBatch : Nat) (send : List Event → Except String TransportResult)
      (q : EventQueue),
      ∃ k, do_flush_try maxBatch send q = { q with buf := q.buf.drop k }) := by
  refine ⟨fun msg => rfl, fun b => rfl, fun now msg => ⟨rfl, rfl, rfl⟩, ?_⟩
  intro maxBatch send q
  exact do_flush_try_drops maxBatch send q.buf.length q le_rfl

end Logfix
